import Mathlib

/-! Shallow embedding of the batch composition and resumable dispatch engine of
the sc2k-city-viewer asset pipeline (src/generate_asset_descriptions.py,
src/generate_images.py, src/persist_image_sizes.py).

External effects are modelled by explicit inputs: decoded Pillow images become
the `PImage` structure, remote calls become outcome oracles passed in as
functions, and the persisted JSON stores (progress index, image-size index)
become association lists.  Every definition is transcribed from the Python
source named in its doc comment. -/

namespace SC2K

/-! Image model (Pillow).  A decoded image is a width, a height and a pixel
lookup; pixel values are abstracted to `Nat`. -/

/-- A decoded raster image as handled by Pillow (`PIL.Image`). -/
structure PImage where
  width : Nat
  height : Nat
  px : Nat → Nat → Nat

/-- Fallback image value for indexing helpers. -/
instance : Inhabited PImage where
  default := ⟨0, 0, fun _ _ => 0⟩

/-- `PIL.Image.crop((left, upper, right, lower))`: the result is
`(right - left) x (lower - upper)` and reads the source shifted by
`(left, upper)`. -/
def PImage.crop (img : PImage) (left upper right lower : Nat) : PImage :=
  ⟨right - left, lower - upper, fun x y => img.px (left + x) (upper + y)⟩

/-- `PIL.Image.resize((w, h), Image.Resampling.NEAREST)`: the result is
`w x h`; each target pixel samples one source pixel (nearest-neighbour,
no smoothing). -/
def PImage.resizeNearest (img : PImage) (w h : Nat) : PImage :=
  ⟨w, h, fun x y => img.px (x * img.width / w) (y * img.height / h)⟩

/-! generate_images.py, `split_grid_image` (lines 587-620). -/

/-- One cell of `split_grid_image` (generate_images.py lines 596-611): the
actual cell footprint is the composite's dimensions floor-divided by the grid
shape; the cell at `(row, col)` is cropped at
`(col * footprintW, row * footprintH)` and, exactly when the footprint differs
from the requested cell dimensions, resized to the requested dimensions with
nearest-neighbour resampling. -/
def splitCell (img : PImage) (rows cols cellW cellH row col : Nat) : PImage :=
  let aw := img.width / cols
  let ah := img.height / rows
  let c := img.crop (col * aw) (row * ah) (col * aw + aw) (row * ah + ah)
  if cellW = aw ∧ cellH = ah then c else c.resizeNearest cellW cellH

/-- The success path of `split_grid_image`: the nested
`for row in range(rows): for col in range(cols)` loop appending one cell per
iteration, i.e. the cells in row-major order. -/
def splitCells (img : PImage) (rows cols cellW cellH : Nat) : List PImage :=
  ((List.range rows).map (fun row =>
    (List.range cols).map (fun col =>
      splitCell img rows cols cellW cellH row col))).flatten

/-- `split_grid_image` (generate_images.py lines 587-620).  `decoded` is the
result of `Image.open` on the input bytes (`none` when the composite cannot be
decoded); `cellFail k` models a Pillow crop/resize/encode exception while
handling flat cell index `k`.  The single `try/except` wrapping the whole loop
means any such failure discards all partial results and yields
`rows * cols` copies of `none`. -/
def split_grid_image (decoded : Option PImage) (rows cols cellW cellH : Nat)
    (cellFail : Nat → Bool) : List (Option PImage) :=
  match decoded with
  | none => List.replicate (rows * cols) none
  | some img =>
    if (List.range (rows * cols)).any cellFail then
      List.replicate (rows * cols) none
    else
      (splitCells img rows cols cellW cellH).map some

/-! generate_asset_descriptions.py: size classification and sprite-sheet
packing. -/

/-- `ImageInfo` (generate_asset_descriptions.py lines 64-69); the md5 digest is
abstracted to a string. -/
structure ImageInfo where
  path : String
  width : Nat
  height : Nat
  hash : String
deriving DecidableEq

/-- `MAX_SINGLE_IMAGE_DIM` (generate_asset_descriptions.py line 49). -/
def MAX_SINGLE_IMAGE_DIM : Nat := 150

/-- `GRID_SIZE` (generate_asset_descriptions.py line 48). -/
def GRID_SIZE : Nat := 10

/-- The smallness test of `categorize_images` (lines 130-133): both dimensions
at most `MAX_SINGLE_IMAGE_DIM`. -/
def isSmallImage (i : ImageInfo) : Bool :=
  i.width ≤ MAX_SINGLE_IMAGE_DIM && i.height ≤ MAX_SINGLE_IMAGE_DIM

/-- `categorize_images` (lines 123-138).  The input carries `none` for files
`get_image_info` could not read (dropped with a warning); readable images are
split into the small (grid-eligible) and large lists, preserving input
order. -/
def categorize_images (infos : List (Option ImageInfo)) :
    List ImageInfo × List ImageInfo :=
  let ok := infos.filterMap id
  (ok.filter isSmallImage, ok.filter (fun i => !(isSmallImage i)))

/-- The slicing loop `for i in range(0, len(l), C): l[i : i + C]` used both by
`main` of generate_asset_descriptions.py (lines 496-497) and by
`generate_compositional_grid` of generate_images.py (lines 462-463): it runs
`ceil(len / C)` iterations, the k-th producing the slice starting at `k * C`
of length at most `C`. -/
def chunksOf (C : Nat) (l : List α) : List (List α) :=
  (List.range ((l.length + C - 1) / C)).map (fun k => (l.drop (k * C)).take C)

/-- The batching of small images in `main` (generate_asset_descriptions.py
lines 496-497): consecutive chunks of `grid_size * grid_size` images in input
order, with no grouping by image dimensions. -/
def pack (gridSize : Nat) (l : List ImageInfo) : List (List ImageInfo) :=
  chunksOf (gridSize * gridSize) l

/-- `create_sprite_sheet` cell dimensions (lines 145-147): taken from the
first image of the batch alone; an empty batch returns empty bytes. -/
def sheetCellDims (images : List ImageInfo) : Nat × Nat :=
  match images with
  | [] => (0, 0)
  | i :: _ => (i.width, i.height)

/-- `create_sprite_sheet` item count (line 149): `min(len(images), 100)`. -/
def sheetCount (images : List ImageInfo) : Nat :=
  min images.length (GRID_SIZE * GRID_SIZE)

/-- `create_sprite_sheet` grid width in cells (line 150). -/
def gridW (images : List ImageInfo) : Nat :=
  min (sheetCount images) GRID_SIZE

/-- `create_sprite_sheet` grid height in cells (line 151):
`ceil(count / GRID_SIZE)`. -/
def gridH (images : List ImageInfo) : Nat :=
  (sheetCount images + GRID_SIZE - 1) / GRID_SIZE

/-- The 0-indexed paste position of each image in `create_sprite_sheet`
(lines 156-162): item `idx` is pasted at grid cell
`(idx // GRID_SIZE, idx % GRID_SIZE)`, row-major. -/
def pastePositions (images : List ImageInfo) : List (Nat × Nat) :=
  (List.range (sheetCount images)).map (fun idx =>
    (idx / GRID_SIZE, idx % GRID_SIZE))

/-- The 1-indexed positions returned to the prompt builder (line 163):
`(row + 1, col + 1)`. -/
def reportedPositions (images : List ImageInfo) : List (Nat × Nat) :=
  (pastePositions images).map (fun rc => (rc.1 + 1, rc.2 + 1))

/-! generate_asset_descriptions.py: content cache and resumable processing. -/

/-- One entry of the persisted progress index: `{"hash": ..., "processed":
true}` (lines 352 and 388); the md5 digest is abstracted to `Nat`. -/
structure CacheRec where
  hash : Nat
  processed : Bool
deriving DecidableEq

/-- The progress index, a JSON object mapping image path to `CacheRec`;
modelled as an association list keyed by an abstract path identifier. -/
abbrev Progress := List (Nat × CacheRec)

/-- One image together with its identity and current content fingerprint
(an `ImageInfo` as consumed by `process_batch` / `process_large_image`);
the path and digest are abstracted to `Nat` identifiers. -/
structure Item where
  id : Nat
  width : Nat
  height : Nat
  hash : Nat
deriving DecidableEq

/-- Lookup of `progress[str_path]`. -/
def lookupRec (p : Progress) (id : Nat) : Option CacheRec :=
  p.lookup id

/-- The test `str_path in progress and progress[str_path].get("hash") ==
img_info.hash` (lines 326 and 371). -/
def cacheHashMatches (p : Progress) (it : Item) : Bool :=
  match lookupRec p it.id with
  | some r => r.hash == it.hash
  | none => false

/-- The skip decision of the `process_batch` filter (lines 321-331), as the
if/elif chain of the source: forced runs never skip; otherwise a matching
cached fingerprint skips, else an existing description file skips, else the
item is processed.  `outEx` models
`get_description_path(...).exists()`. -/
def skipBatchItem (force : Bool) (p : Progress) (outEx : Nat → Bool)
    (it : Item) : Bool :=
  if force then false
  else if cacheHashMatches p it then true
  else if outEx it.id then true
  else false

/-- The skip decision of `process_large_image` (lines 368-374), the same
chain as `skipBatchItem`. -/
def skipLargeItem (force : Bool) (p : Progress) (outEx : Nat → Bool)
    (it : Item) : Bool :=
  if force then false
  else if cacheHashMatches p it then true
  else if outEx it.id then true
  else false

/-- Modelled from the spec (section 4.1): the skip rule as the specification
states it, a cache record with an equal fingerprint AND an existing output
artifact.  Declared only to compare against the code's rule. -/
def specSkipRule (p : Progress) (outEx : Nat → Bool) (it : Item) : Bool :=
  cacheHashMatches p it && outEx it.id

/-- The `need_process` list of `process_batch` (lines 321-331): the input
images with the skipped ones removed, in order. -/
def needProcessBatch (force : Bool) (p : Progress) (outEx : Nat → Bool)
    (images : List Item) : List Item :=
  images.filter (fun it => !(skipBatchItem force p outEx it))

/-- `load_progress` (lines 97-101).  The input is `none` when the progress
file does not exist, otherwise the outcome of `json.load`: `Except.ok` for a
well-formed index, `Except.error` for a corrupt or unreadable one.  The source
has no exception handler, so a parse error propagates to the caller. -/
def load_progress (file : Option (Except String Progress)) :
    Except String Progress :=
  match file with
  | some parsed => parsed
  | none => Except.ok []

/-- Python dict assignment `progress[str_path] = {...}` on the association
list. -/
def setRec (p : Progress) (id : Nat) (r : CacheRec) : Progress :=
  match p with
  | [] => [(id, r)]
  | e :: rest => if e.1 == id then (id, r) :: rest else e :: setRec rest id r

/-- The identifiers carrying a done-mark (`processed: true`) in a progress
index. -/
def markedIds (p : Progress) : List Nat :=
  (p.filter (fun e => e.2.processed)).map (fun e => e.1)

/-- Boolean form of "every done-mark of `p` is covered by the write set
`w`". -/
def marksCovered (p : Progress) (w : List Nat) : Bool :=
  (markedIds p).all (fun x => decide (x ∈ w))

/-- Observable events of a run of the asset-description script, in program
order: a remote API call naming the items it covers, a durable write of one
description file, and a durable rewrite of the whole progress index
(`save_progress`). -/
inductive Event
  | remoteCall (ids : List Nat)
  | writeOut (id : Nat)
  | persist (p : Progress)
deriving DecidableEq

/-- The save loop of `process_batch` (lines 339-353): for each item of
`need_process` that received a description (`descOk`), write its description
file and update the in-memory progress; items without a description are
counted as failed and leave no trace. -/
def processBatchSaves (descOk : Nat → Bool) :
    List Item → Progress → List Event × Progress
  | [], p => ([], p)
  | it :: rest, p =>
    if descOk it.id then
      let next := processBatchSaves descOk rest (setRec p it.id ⟨it.hash, true⟩)
      (Event.writeOut it.id :: next.1, next.2)
    else processBatchSaves descOk rest p

/-- `process_batch` (lines 312-356): filter out skipped items; if nothing
remains, return without touching the remote or the progress file; otherwise
issue one remote call for the remaining items, save each returned description,
and persist the progress index once at the end (line 355). -/
def process_batch (force : Bool) (outEx : Nat → Bool) (descOk : Nat → Bool)
    (images : List Item) (p : Progress) : List Event × Progress :=
  let need := needProcessBatch force p outEx images
  if need.isEmpty then ([], p)
  else
    let next := processBatchSaves descOk need p
    (Event.remoteCall (need.map Item.id) :: next.1 ++ [Event.persist next.2],
     next.2)

/-- `process_large_image` (lines 359-390): a skipped item returns success with
no events; otherwise one remote call is made and, if a description came back,
the output is written first (lines 380-386) and the progress index persisted
afterwards (lines 388-389).  The `Bool` is the function's return value. -/
def process_large_image (force : Bool) (outEx : Nat → Bool)
    (descOk : Nat → Bool) (it : Item) (p : Progress) :
    (List Event × Progress) × Bool :=
  if skipLargeItem force p outEx it then (([], p), true)
  else if descOk it.id then
    let p2 := setRec p it.id ⟨it.hash, true⟩
    (([Event.remoteCall [it.id], Event.writeOut it.id, Event.persist p2], p2),
     true)
  else (([Event.remoteCall [it.id]], p), false)

/-- One unit of work of `main` (lines 496-534): a sprite-sheet batch of small
images or one large image. -/
inductive WorkUnit
  | batch (images : List Item)
  | single (it : Item)
deriving DecidableEq

/-- The driver loop of `main`: units processed in order, threading the
in-memory progress index through; the emitted events are concatenated in
program order. -/
def runUnits (force : Bool) (outEx : Nat → Bool) (descOk : Nat → Bool) :
    List WorkUnit → Progress → List Event × Progress
  | [], p => ([], p)
  | u :: rest, p =>
    let step :=
      match u with
      | WorkUnit.batch imgs => process_batch force outEx descOk imgs p
      | WorkUnit.single it => (process_large_image force outEx descOk it p).1
    let next := runUnits force outEx descOk rest step.2
    (step.1 ++ next.1, next.2)

/-- The write set after a trace: the identifiers whose output write occurred,
accumulated over the events. -/
def afterWritten (w : List Nat) : List Event → List Nat
  | [] => w
  | Event.writeOut id :: rest => afterWritten (id :: w) rest
  | Event.remoteCall _ :: rest => afterWritten w rest
  | Event.persist _ :: rest => afterWritten w rest

/-- The temporal safety property of a trace: at every `persist` event, every
done-marked identifier of the persisted index has a preceding output write
(or was in the initial write set `w`). -/
def tracksWrites (w : List Nat) : List Event → Prop
  | [] => True
  | Event.writeOut id :: rest => tracksWrites (id :: w) rest
  | Event.remoteCall _ :: rest => tracksWrites w rest
  | Event.persist q :: rest =>
    (∀ x ∈ markedIds q, x ∈ w) ∧ tracksWrites w rest

/-! generate_images.py: asynchronous job polling. -/

/-- `FAL_MAX_POLL_TIME` (generate_images.py line 36), in seconds; the poll
interval `FAL_POLL_INTERVAL` is one second (line 35). -/
def FAL_MAX_POLL_TIME : Nat := 120

/-- One poll of the status endpoint, as parsed by `generate_image` (lines
210-226) and `generate_image_async` (lines 316-338): a non-200 response, or a
JSON status of COMPLETED, FAILED, CANCELLED; every other status (IN_QUEUE,
IN_PROGRESS, unknown strings) keeps the job pending. -/
inductive PollResp
  | httpError
  | completedS
  | failedS
  | cancelledS
  | pending
deriving DecidableEq

/-- Terminal outcome of the poll loop, with the elapsed second at which it
fired. -/
inductive JobResolution
  | completed (t : Nat)
  | failedStatus (t : Nat)
  | pollError (t : Nat)
  | timedOut
deriving DecidableEq

/-- The poll loop `while time.time() - poll_start < FAL_MAX_POLL_TIME` of
`generate_image` (lines 208-230) and `generate_image_async` (lines 314-341):
each pending iteration sleeps `FAL_POLL_INTERVAL` (one second), so the loop
runs at most `FAL_MAX_POLL_TIME` iterations; `t` is the elapsed whole seconds
and `fuel` the seconds remaining before the deadline. -/
def pollLoop (resp : Nat → PollResp) (t fuel : Nat) : JobResolution :=
  match fuel with
  | 0 => JobResolution.timedOut
  | f + 1 =>
    match resp t with
    | PollResp.httpError => JobResolution.pollError t
    | PollResp.completedS => JobResolution.completed t
    | PollResp.failedS => JobResolution.failedStatus t
    | PollResp.cancelledS => JobResolution.failedStatus t
    | PollResp.pending => pollLoop resp (t + 1) f

/-- A submitted job's resolution: the poll loop entered at submission time
with the full `FAL_MAX_POLL_TIME` budget. -/
def resolveJob (resp : Nat → PollResp) : JobResolution :=
  pollLoop resp 0 FAL_MAX_POLL_TIME

/-! generate_images.py: description loading and compositional grid mode. -/

/-- `AssetDescription` (generate_images.py lines 99-110), restricted to the
fields the modelled code paths read. -/
structure AssetDescription where
  json_path : String
  source_file : String
  keywords : List String
  asset_type : String
  hash : String
  width : Nat
  height : Nat
deriving DecidableEq

/-- Fallback description for indexing helpers. -/
instance : Inhabited AssetDescription where
  default := ⟨"", "", [], "", "", 0, 0⟩

/-- The fields `load_json_descriptions` reads from one parsed JSON file
(lines 142-147), each `none` when the key is absent. -/
structure JsonData where
  source_file : Option String
  keywords : Option (List String)
  jtype : Option String
  jhash : Option String
deriving DecidableEq

/-- One JSON file under the root as seen by `load_json_descriptions`:
its path, the derived size-index key `str(rel_path.with_suffix(".png"))`
(line 150), the default output name `json_file.stem + ".png"` (line 143), and
the outcome of parsing it (`none` for files skipped with a warning). -/
structure RawFile where
  json_path : String
  png_path : String
  stemPng : String
  parsed : Option JsonData
deriving DecidableEq

/-- `load_image_sizes` (lines 122-126): the persisted size index, or the
empty index when `IMAGE_SIZES_FILE` does not exist.  Entries map a png path
to a width and a height. -/
def load_image_sizes (file : Option (List (String × Nat × Nat))) :
    List (String × Nat × Nat) :=
  match file with
  | some m => m
  | none => []

/-- `sizes.get(str(png_path), {"width": 64, "height": 64})` (line 151). -/
def sizeLookup (sizes : List (String × Nat × Nat)) (p : String) : Nat × Nat :=
  match sizes.find? (fun e => e.1 == p) with
  | some e => (e.2.1, e.2.2)
  | none => (64, 64)

/-- The per-file body of `load_json_descriptions` (lines 138-163): a file
that fails to parse is skipped with a warning; otherwise an
`AssetDescription` is built with the source defaults and the size-index
lookup. -/
def mkDescription (sizes : List (String × Nat × Nat)) (f : RawFile) :
    Option AssetDescription :=
  match f.parsed with
  | none => none
  | some d =>
    let sz := sizeLookup sizes f.png_path
    some ⟨f.json_path, d.source_file.getD f.stemPng, d.keywords.getD [],
          d.jtype.getD "sprite", d.jhash.getD "", sz.1, sz.2⟩

/-- The sort key of `load_json_descriptions` (line 167): lexicographic on
`(width, height, json_path)`. -/
def descLe (a b : AssetDescription) : Bool :=
  decide (a.width < b.width) ||
    (a.width == b.width &&
      (decide (a.height < b.height) ||
        (a.height == b.height && decide (a.json_path ≤ b.json_path))))

/-- `load_json_descriptions` (lines 129-167): parse every JSON file, skip the
unparseable, and sort by `(width, height, json_path)`. -/
def load_json_descriptions (sizes : List (String × Nat × Nat))
    (files : List RawFile) : List AssetDescription :=
  (files.filterMap (mkDescription sizes)).mergeSort descLe

/-- The outcome of the one remote interaction `generate_compositional_grid`
performs for a batch (lines 479-552), by failure stage: submit exception
(`raise_for_status` or transport error), missing status/response urls, a
non-200 status poll, an explicit FAILED/CANCELLED status, poll timeout, a
non-200 result fetch, an empty images array, a missing image url, an image
download exception — or a fetched composite, `decoded` being its Pillow
decode (`none` when undecodable) and `cellFail` the per-cell failure oracle
of `split_grid_image`. -/
inductive GridCall
  | submitError
  | missingUrls
  | pollStatusError
  | pollFailed
  | pollTimeout
  | fetchError
  | noImages
  | noImageUrl
  | downloadError
  | ok (decoded : Option PImage) (cellFail : Nat → Bool)

/-- True for every `GridCall` outcome the claim counts as a batch-level
failure: every stage except a fetched AND decodable composite. -/
def gridCallFailed : GridCall → Bool
  | GridCall.ok (some _) _ => false
  | _ => true

/-- First-item cell width used by `generate_compositional_grid` when
splitting (line 539: `batch[0].width`). -/
def headCellW (batch : List AssetDescription) : Nat :=
  (batch.headD default).width

/-- First-item cell height (line 539: `batch[0].height`). -/
def headCellH (batch : List AssetDescription) : Nat :=
  (batch.headD default).height

/-- The per-batch tail of `generate_compositional_grid` (lines 479-552): on
any failure stage every item of the batch is paired with `none`
(lines 492-493, 517-518, 524-525, 546-547, 551-552); on a fetched composite
the split results are zipped against the batch (lines 538-542). -/
def gridBatchResults (call : GridCall) (rows cols : Nat)
    (batch : List AssetDescription) : List (AssetDescription × Option PImage) :=
  match call with
  | GridCall.ok decoded cellFail =>
    batch.zip
      (split_grid_image decoded rows cols (headCellW batch) (headCellH batch)
        cellFail)
  | _ => batch.map (fun d => (d, none))

/-- `generate_compositional_grid` (lines 450-554): slice the descriptions
into batches of `rows * cols` in input order and process each batch with its
own remote call, concatenating the per-item results. -/
def generate_compositional_grid (call : Nat → GridCall) (rows cols : Nat)
    (descs : List AssetDescription) : List (AssetDescription × Option PImage) :=
  ((chunksOf (rows * cols) descs).enum.map
    (fun kb => gridBatchResults (call kb.1) rows cols kb.2)).flatten

/-- The compositional writer of `main` (lines 764-779): an output file is
written exactly for the results carrying bytes; `none` results are counted as
errors and write nothing. -/
def savedDescs (results : List (AssetDescription × Option PImage)) :
    List AssetDescription :=
  (results.filter (fun r => r.2.isSome)).map (fun r => r.1)

/-- Toy status oracle for the poll-loop witness: pending for three seconds,
then completed. -/
def respToy : Nat → PollResp :=
  fun t => if t < 3 then PollResp.pending else PollResp.completedS

/-! Helper lemmas about `chunksOf`. -/

theorem chunksOf_nil (C : Nat) : chunksOf C ([] : List α) = [] := by
  have h : (C - 1) / C = 0 := by
    match C with
    | 0 => rfl
    | c + 1 => exact Nat.div_eq_of_lt (by omega)
  simp [chunksOf, h]

theorem chunksOf_cons (C : Nat) (hC : 0 < C) (x : α) (xs : List α) :
    chunksOf C (x :: xs) =
      ((x :: xs).take C) :: chunksOf C ((x :: xs).drop C) := by
  have h1 : ((x :: xs).length + C - 1) / C = xs.length / C + 1 := by
    have he : (x :: xs).length + C - 1 = xs.length + C := by
      simp only [List.length_cons]; omega
    rw [he, Nat.add_div_right _ hC]
  have h2 : (((x :: xs).drop C).length + C - 1) / C = xs.length / C := by
    have hd : ((x :: xs).drop C).length = xs.length + 1 - C := by
      simp [List.length_drop]
    rw [hd]
    by_cases hc : C ≤ xs.length + 1
    · have he : xs.length + 1 - C + C - 1 = xs.length := by omega
      rw [he]
    · have h3 : xs.length + 1 - C = 0 := by omega
      rw [h3]
      have h4 : (0 + C - 1) / C = 0 := Nat.div_eq_of_lt (by omega)
      have h5 : xs.length / C = 0 := Nat.div_eq_of_lt (by omega)
      rw [h4, h5]
  unfold chunksOf
  rw [h1, h2, List.range_succ_eq_map, List.map_cons, List.map_map]
  congr 1
  · simp
  · apply List.map_congr_left
    intro k _
    have hm : (k + 1) * C = C + k * C := by ring
    simp only [Function.comp_apply, Nat.succ_eq_add_one, hm, List.drop_drop]

theorem chunksOf_flatten_aux (C : Nat) (hC : 0 < C) :
    ∀ (n : Nat) (l : List α), l.length ≤ n → (chunksOf C l).flatten = l := by
  intro n
  induction n with
  | zero =>
    intro l hl
    have : l = [] := List.eq_nil_of_length_eq_zero (Nat.le_zero.mp hl)
    subst this
    simp [chunksOf_nil]
  | succ n ih =>
    intro l hl
    match l with
    | [] => simp [chunksOf_nil]
    | x :: xs =>
      rw [chunksOf_cons C hC, List.flatten_cons]
      have hl2 : xs.length + 1 ≤ n + 1 := by simpa using hl
      rw [ih ((x :: xs).drop C)
        (by simp only [List.length_drop, List.length_cons]; omega)]
      exact List.take_append_drop C (x :: xs)

theorem chunksOf_flatten (C : Nat) (hC : 0 < C) (l : List α) :
    (chunksOf C l).flatten = l :=
  chunksOf_flatten_aux C hC l.length l (Nat.le_refl _)

theorem mem_chunksOf (C : Nat) (hC : 0 < C) (l : List α) (b : List α)
    (hb : b ∈ chunksOf C l) : b ≠ [] ∧ b.length ≤ C := by
  unfold chunksOf at hb
  rw [List.mem_map] at hb
  obtain ⟨k, hk, hbk⟩ := hb
  rw [List.mem_range] at hk
  constructor
  · have hkC : k * C < l.length := by
      rcases Nat.eq_zero_or_pos l.length with h0 | hpos
      · rw [h0] at hk
        have : (0 + C - 1) / C = 0 := Nat.div_eq_of_lt (by omega)
        omega
      · have hcount : (l.length + C - 1) / C = (l.length - 1) / C + 1 := by
          have he : l.length + C - 1 = (l.length - 1) + C := by omega
          rw [he, Nat.add_div_right _ hC]
        rw [hcount] at hk
        have hk2 : k ≤ (l.length - 1) / C := by omega
        have : k * C ≤ (l.length - 1) / C * C :=
          Nat.mul_le_mul_right C hk2
        have hdm : (l.length - 1) / C * C ≤ l.length - 1 :=
          Nat.div_mul_le_self _ _
        omega
    have : b.length = min C (l.length - k * C) := by
      rw [← hbk]
      simp [List.length_take, List.length_drop]
    have hpos : 0 < b.length := by omega
    exact List.ne_nil_of_length_pos hpos
  · rw [← hbk]
    simp [List.length_take]

theorem getElem?_chunksOf (C : Nat) (l : List α) (k : Nat)
    (hk : k < (l.length + C - 1) / C) :
    (chunksOf C l)[k]? = some ((l.drop (k * C)).take C) := by
  unfold chunksOf
  rw [List.getElem?_map, List.getElem?_range hk]
  rfl

/-! Helper lemmas about flattening uniform-width row lists. -/

theorem flatten_length_uniform (c : Nat) :
    ∀ (L : List (List α)), (∀ b ∈ L, b.length = c) →
      L.flatten.length = L.length * c := by
  intro L
  induction L with
  | nil => intro _; simp
  | cons b T ih =>
    intro h
    have hb : b.length = c := h b (by simp)
    have hT : ∀ x ∈ T, x.length = c := by
      intro x hx; exact h x (by simp [hx])
    simp only [List.flatten_cons, List.length_append, List.length_cons, ih hT,
      hb, Nat.succ_mul]
    omega

theorem flatten_getElem_uniform (c : Nat) (hc : 0 < c) :
    ∀ (L : List (List α)), (∀ b ∈ L, b.length = c) → ∀ k, k < L.length * c →
      L.flatten[k]? = L[k / c]?.bind (fun b => b[k % c]?) := by
  intro L
  induction L with
  | nil => intro _ k hk; simp at hk
  | cons b T ih =>
    intro h k hk
    have hb : b.length = c := h b (by simp)
    have hT : ∀ x ∈ T, x.length = c := by
      intro x hx; exact h x (by simp [hx])
    rw [List.flatten_cons]
    by_cases hkc : k < c
    · have hdiv : k / c = 0 := Nat.div_eq_of_lt hkc
      have hmod : k % c = k := Nat.mod_eq_of_lt hkc
      rw [List.getElem?_append_left (by omega), hdiv, hmod]
      simp
    · have hklt : k - c < T.length * c := by
        have : k < T.length * c + c := by
          have hlc : (b :: T).length * c = T.length * c + c := by
            simp [List.length_cons, Nat.succ_mul]
          omega
        omega
      have hge : c ≤ k := by omega
      rw [List.getElem?_append_right (by omega), hb, ih hT (k - c) hklt]
      have hk2 : k = (k - c) + c := by omega
      have hdiv : k / c = (k - c) / c + 1 := by
        conv_lhs => rw [hk2]
        rw [Nat.add_div_right _ hc]
      have hmod : k % c = (k - c) % c := by
        conv_lhs => rw [hk2]
        rw [Nat.add_mod_right]
      rw [hdiv, hmod]
      simp

theorem zip_replicate_none (l : List α) (n : Nat) (h : l.length ≤ n) :
    l.zip (List.replicate n (none : Option β)) =
      l.map (fun d => (d, none)) := by
  induction l generalizing n with
  | nil => simp
  | cons x xs ih =>
    match n with
    | 0 => simp at h
    | m + 1 =>
      simp only [List.replicate_succ, List.zip_cons_cons, List.map_cons]
      rw [ih m (by simpa using h)]

theorem getElem?_enum (l : List α) (k : Nat) :
    l.enum[k]? = l[k]?.map (fun a => (k, a)) := by
  rw [List.getElem?_enum]

theorem splitCells_length (img : PImage) (rows cols cellW cellH : Nat) :
    (splitCells img rows cols cellW cellH).length = rows * cols := by
  have hU : ∀ b ∈ (List.range rows).map (fun row =>
      (List.range cols).map (fun col =>
        splitCell img rows cols cellW cellH row col)), b.length = cols := by
    intro b hb
    rw [List.mem_map] at hb
    obtain ⟨row, _, rfl⟩ := hb
    simp
  unfold splitCells
  rw [flatten_length_uniform cols _ hU]
  simp

/-- C9 (confirmed): `split_grid_image` is total and all-or-nothing.  For every
decode outcome, per-cell failure oracle and grid shape it returns exactly
`rows * cols` entries, and the result is either all `none` (the replicate of
the exception handler) or all real sub-results — never a mixture from one
attempt. -/
theorem c9_split_total_all_or_nothing (decoded : Option PImage)
    (cellFail : Nat → Bool) (rows cols cellW cellH : Nat) :
    (split_grid_image decoded rows cols cellW cellH cellFail).length =
        rows * cols
    ∧ (split_grid_image decoded rows cols cellW cellH cellFail =
        List.replicate (rows * cols) none
      ∨ ∃ l : List PImage,
          split_grid_image decoded rows cols cellW cellH cellFail =
            l.map some) := by
  match decoded with
  | none => exact ⟨by simp [split_grid_image], Or.inl rfl⟩
  | some img =>
    simp only [split_grid_image]
    by_cases h : (List.range (rows * cols)).any cellFail
    · rw [if_pos h]
      exact ⟨by simp, Or.inl rfl⟩
    · rw [if_neg h]
      refine ⟨?_, Or.inr ⟨splitCells img rows cols cellW cellH, rfl⟩⟩
      rw [List.length_map, splitCells_length]

/-- C5 (confirmed): on a decodable composite, the split derives the actual
cell footprint as `(width / cols, height / rows)`, takes the cells in
row-major order (flat index `k` is cell `(k / cols, k % cols)`), crops each
cell at `(col * footprintW, row * footprintH)`, resamples with
nearest-neighbour exactly when the footprint differs from the requested cell
dimensions, and every returned sub-result has exactly the requested
dimensions.  `splitCell` is by definition the crop at the derived footprint
followed by the conditional nearest-neighbour resize. -/
theorem c5_unpack_cell (img : PImage) (rows cols cellW cellH k : Nat)
    (hcols : 0 < cols) (hk : k < rows * cols) :
    (splitCells img rows cols cellW cellH).length = rows * cols
    ∧ (splitCells img rows cols cellW cellH)[k]? =
        some (splitCell img rows cols cellW cellH (k / cols) (k % cols))
    ∧ (splitCell img rows cols cellW cellH (k / cols) (k % cols)).width =
        cellW
    ∧ (splitCell img rows cols cellW cellH (k / cols) (k % cols)).height =
        cellH := by
  have hU : ∀ b ∈ (List.range rows).map (fun row =>
      (List.range cols).map (fun col =>
        splitCell img rows cols cellW cellH row col)), b.length = cols := by
    intro b hb
    rw [List.mem_map] at hb
    obtain ⟨row, _, rfl⟩ := hb
    simp
  refine ⟨splitCells_length img rows cols cellW cellH, ?_, ?_, ?_⟩
  · have hlen : ((List.range rows).map (fun row =>
        (List.range cols).map (fun col =>
          splitCell img rows cols cellW cellH row col))).length = rows := by
      simp
    have hmain := flatten_getElem_uniform cols hcols _ hU k (by rw [hlen]; exact hk)
    unfold splitCells
    rw [hmain]
    have hdiv : k / cols < rows := (Nat.div_lt_iff_lt_mul hcols).mpr hk
    rw [List.getElem?_map, List.getElem?_range hdiv]
    have hmod : k % cols < cols := Nat.mod_lt _ hcols
    simp only [Option.map_some', Option.some_bind]
    rw [List.getElem?_map, List.getElem?_range hmod]
    rfl
  · by_cases h : cellW = img.width / cols ∧ cellH = img.height / rows
    · obtain ⟨h1, h2⟩ := h
      simp only [splitCell, if_pos (And.intro h1 h2), PImage.crop]
      omega
    · simp only [splitCell, if_neg h, PImage.resizeNearest]
  · by_cases h : cellW = img.width / cols ∧ cellH = img.height / rows
    · obtain ⟨h1, h2⟩ := h
      simp only [splitCell, if_pos (And.intro h1 h2), PImage.crop]
      omega
    · simp only [splitCell, if_neg h, PImage.resizeNearest]

/-- C5 witness: a 140 x 140 composite split as a 2 x 2 grid against a
requested cell size of 64 x 64 has an actual per-cell footprint of 70 x 70,
and the last sub-result (flat index 3) comes out exactly 64 x 64. -/
theorem c5_unpack_cell_witness :
    (0 : Nat) < 2 ∧ (3 : Nat) < 2 * 2
    ∧ (⟨140, 140, fun x y => x + y⟩ : PImage).width / 2 = 70
    ∧ (splitCells ⟨140, 140, fun x y => x + y⟩ 2 2 64 64).length = 2 * 2
    ∧ (splitCell (⟨140, 140, fun x y => x + y⟩ : PImage) 2 2 64 64
        (3 / 2) (3 % 2)).width = 64
    ∧ (splitCell (⟨140, 140, fun x y => x + y⟩ : PImage) 2 2 64 64
        (3 / 2) (3 % 2)).height = 64 := by
  have h := c5_unpack_cell ⟨140, 140, fun x y => x + y⟩ 2 2 64 64 3
    (by decide) (by decide)
  exact ⟨by decide, by decide, by decide, h.1, h.2.2.1, h.2.2.2⟩

/-- C6 counterexample: a corrupt progress index is not treated as the empty
cache.  `load_progress` has no exception handler, so the `json.load` parse
error propagates instead of yielding the empty index, refuting the claimed
fail-open behaviour. -/
theorem c6_counterexample :
    load_progress (some (Except.error "corrupt")) ≠
      Except.ok ([] : Progress) := by
  simp [load_progress]

/-- C6 (corrected): a missing progress file yields the empty cache, but a
corrupt or unreadable index is not treated as empty — the parse error
propagates out of `load_progress` and aborts the run.  No item is silently
skipped on the basis of a corrupt index, but by abort, not by the claimed
fail-open-to-empty behaviour. -/
theorem c6_load_progress_behaviour :
    load_progress none = Except.ok ([] : Progress)
    ∧ (∀ e : String, load_progress (some (Except.error e)) = Except.error e)
    ∧ (∀ p : Progress, load_progress (some (Except.ok p)) = Except.ok p) :=
  ⟨rfl, fun _ => rfl, fun _ => rfl⟩

/-- C1 counterexample: an item whose recorded fingerprint (5) differs from
its current fingerprint (7) but whose output file exists is skipped by both
`process_batch` and `process_large_image`, although the claimed skip rule
(fingerprint match AND output present) is false for it — the code skips on
fingerprint match OR output presence, not AND. -/
theorem c1_counterexample :
    skipBatchItem false [(1, ⟨5, true⟩)] (fun _ => true) ⟨1, 10, 10, 7⟩ = true
    ∧ skipLargeItem false [(1, ⟨5, true⟩)] (fun _ => true) ⟨1, 10, 10, 7⟩ =
        true
    ∧ specSkipRule [(1, ⟨5, true⟩)] (fun _ => true) ⟨1, 10, 10, 7⟩ = false
    ∧ cacheHashMatches [(1, ⟨5, true⟩)] ⟨1, 10, 10, 7⟩ = false := by
  decide

theorem processBatchSaves_events (descOk : Nat → Bool) :
    ∀ (need : List Item) (p : Progress) (e : Event),
      e ∈ (processBatchSaves descOk need p).1 → ∃ id, e = Event.writeOut id := by
  intro need
  induction need with
  | nil => intro p e he; simp [processBatchSaves] at he
  | cons it rest ih =>
    intro p e he
    unfold processBatchSaves at he
    by_cases hd : descOk it.id
    · rw [if_pos hd] at he
      rcases List.mem_cons.mp he with h | h
      · exact ⟨it.id, h⟩
      · exact ih _ e h
    · rw [if_neg hd] at he
      exact ih _ e he

/-- C1 (corrected): in a non-forced run an item is skipped if and only if a
cache record with an equal fingerprint exists OR its expected output artifact
is present (the source's if/elif chain is that disjunction, not the claimed
conjunction); force mode bypasses the check unconditionally.  Skipped items
are excluded from `need_process`, the only list handed to the remote call of
`process_batch`, and a skipped large item produces no events at all. -/
theorem c1_skip_rule (force : Bool) (p : Progress) (outEx : Nat → Bool)
    (it : Item) (images : List Item) (descOk : Nat → Bool) :
    skipBatchItem force p outEx it =
        (!force && (cacheHashMatches p it || outEx it.id))
    ∧ skipLargeItem force p outEx it =
        (!force && (cacheHashMatches p it || outEx it.id))
    ∧ needProcessBatch force p outEx images =
        images.filter
          (fun i => !(!force && (cacheHashMatches p i || outEx i.id)))
    ∧ (∀ ids, Event.remoteCall ids ∈ (process_batch force outEx descOk images p).1 →
        ids = (needProcessBatch force p outEx images).map Item.id)
    ∧ (skipLargeItem force p outEx it = true →
        (process_large_image force outEx descOk it p).1.1 = []) := by
  have hsb : ∀ j : Item, skipBatchItem force p outEx j =
      (!force && (cacheHashMatches p j || outEx j.id)) := by
    intro j
    cases force <;> cases h : cacheHashMatches p j <;>
      cases ho : outEx j.id <;> simp [skipBatchItem, h, ho]
  have hsl : ∀ j : Item, skipLargeItem force p outEx j =
      (!force && (cacheHashMatches p j || outEx j.id)) := by
    intro j
    cases force <;> cases h : cacheHashMatches p j <;>
      cases ho : outEx j.id <;> simp [skipLargeItem, h, ho]
  refine ⟨hsb it, hsl it, ?_, ?_, ?_⟩
  · unfold needProcessBatch
    apply List.filter_congr
    intro i _
    rw [hsb i]
  · intro ids hmem
    unfold process_batch at hmem
    by_cases hne : (needProcessBatch force p outEx images).isEmpty
    · rw [if_pos hne] at hmem
      simp at hmem
    · rw [if_neg hne] at hmem
      rcases List.mem_cons.mp hmem with h | h
      · exact (Event.remoteCall.injEq _ _).mp h.symm |>.symm ▸ rfl
      · rcases List.mem_append.mp h with h2 | h2
        · obtain ⟨id, hid⟩ := processBatchSaves_events descOk _ _ _ h2
          exact absurd hid (by simp)
        · simp at h2
  · intro hskip
    simp [process_large_image, hskip]

/-- C1 witness: a concrete skipped large item (output exists) produces no
events, and the remote call of a concrete batch names exactly the non-skipped
items. -/
theorem c1_skip_rule_witness :
    skipLargeItem false [] (fun _ => true) ⟨2, 8, 8, 3⟩ = true
    ∧ (process_large_image false (fun _ => true) (fun _ => true)
        ⟨2, 8, 8, 3⟩ []).1.1 = []
    ∧ Event.remoteCall [2] ∈
        (process_batch false (fun _ => false) (fun _ => true)
          [⟨2, 8, 8, 3⟩] []).1
    ∧ [2] = (needProcessBatch false [] (fun _ => false)
        [⟨2, 8, 8, 3⟩]).map Item.id := by
  refine ⟨by decide, ?_, by decide, ?_⟩
  · exact (c1_skip_rule false [] (fun _ => true) ⟨2, 8, 8, 3⟩ []
      (fun _ => true)).2.2.2.2 (by decide)
  · exact (c1_skip_rule false [] (fun _ => false) ⟨2, 8, 8, 3⟩ [⟨2, 8, 8, 3⟩]
      (fun _ => true)).2.2.2.1 [2] (by decide)

/-- C2 counterexample: two grid-eligible images of different native sizes
(10 x 10 and 20 x 20, both within the 150-pixel threshold) land in the same
batch — the packer never groups by exact (width, height), refuting the
claimed uniform-cell batching. -/
theorem c2_counterexample :
    (categorize_images [some ⟨"a.png", 10, 10, "h1"⟩,
        some ⟨"b.png", 20, 20, "h2"⟩]).1 =
      [⟨"a.png", 10, 10, "h1"⟩, ⟨"b.png", 20, 20, "h2"⟩]
    ∧ pack GRID_SIZE [⟨"a.png", 10, 10, "h1"⟩, ⟨"b.png", 20, 20, "h2"⟩] =
      [[⟨"a.png", 10, 10, "h1"⟩, ⟨"b.png", 20, 20, "h2"⟩]]
    ∧ (⟨"a.png", 10, 10, "h1"⟩ : ImageInfo).width ≠
        (⟨"b.png", 20, 20, "h2"⟩ : ImageInfo).width := by
  decide

/-- C2 (corrected): the grid-eligible items are sliced into consecutive
chunks of at most `gridSize * gridSize` items in input order — with no
grouping by size — each chunk becoming one batch, and the sprite sheet's
cell dimensions are taken from the chunk's first item alone. -/
theorem c2_chunking (g : Nat) (hg : 0 < g) (l : List ImageInfo) :
    (pack g l).flatten = l
    ∧ (∀ b ∈ pack g l, b ≠ [] ∧ b.length ≤ g * g)
    ∧ (∀ b hd tl, b ∈ pack g l → b = hd :: tl →
        sheetCellDims b = (hd.width, hd.height)) := by
  have hgg : 0 < g * g := Nat.mul_pos hg hg
  refine ⟨chunksOf_flatten _ hgg l, ?_, ?_⟩
  · intro b hb
    exact mem_chunksOf _ hgg l b hb
  · intro b hd tl _ hcons
    subst hcons
    rfl

/-- C2 witness: the corrected chunking behaviour at a concrete two-image
input. -/
theorem c2_chunking_witness :
    0 < GRID_SIZE
    ∧ (pack GRID_SIZE [⟨"a.png", 10, 10, "h1"⟩,
        ⟨"b.png", 20, 20, "h2"⟩]).flatten =
      [⟨"a.png", 10, 10, "h1"⟩, ⟨"b.png", 20, 20, "h2"⟩] :=
  ⟨by decide,
   (c2_chunking GRID_SIZE (by decide)
     [⟨"a.png", 10, 10, "h1"⟩, ⟨"b.png", 20, 20, "h2"⟩]).1⟩

/-- C4 (confirmed): packing N items at the default grid size yields exactly
ceil(N / C) batches (C = 100 = gridRows * gridCols), each of at most C items,
and identical inputs yield identical batches.  Within each batch the i-th
item is pasted at cell `(i / cols, i % cols)` of the batch's own layout in
row-major order, every assigned position is distinct, and no batch holds more
items than `rows * cols` of its layout. -/
theorem c4_pack_properties (items : List ImageInfo) :
    (pack GRID_SIZE items).length =
        (items.length + GRID_SIZE * GRID_SIZE - 1) / (GRID_SIZE * GRID_SIZE)
    ∧ (pack GRID_SIZE items).flatten = items
    ∧ (∀ l2, items = l2 → pack GRID_SIZE items = pack GRID_SIZE l2)
    ∧ (∀ b, b ∈ pack GRID_SIZE items →
        b ≠ []
        ∧ b.length ≤ GRID_SIZE * GRID_SIZE
        ∧ sheetCount b = b.length
        ∧ b.length ≤ gridW b * gridH b
        ∧ (pastePositions b).Nodup
        ∧ (∀ i, i < b.length →
            (pastePositions b)[i]? = some (i / gridW b, i % gridW b))) := by
  refine ⟨by simp [pack, chunksOf], chunksOf_flatten _ (by decide) items,
    fun l2 h => by rw [h], ?_⟩
  intro b hb
  obtain ⟨hne, hle⟩ := mem_chunksOf _ (by decide) items b hb
  have hpos : 0 < b.length := List.length_pos.mpr hne
  have hcount : sheetCount b = b.length := by
    unfold sheetCount
    exact Nat.min_eq_left hle
  have hgw : gridW b = min b.length GRID_SIZE := by
    unfold gridW
    rw [hcount]
  refine ⟨hne, hle, hcount, ?_, ?_, ?_⟩
  · unfold gridH
    rw [hcount, hgw]
    by_cases h10 : b.length ≤ GRID_SIZE
    · rw [Nat.min_eq_left h10]
      have hq : (b.length + GRID_SIZE - 1) / GRID_SIZE = 1 := by
        simp only [GRID_SIZE] at h10 ⊢
        omega
      rw [hq, Nat.mul_one]
    · rw [Nat.min_eq_right (by omega)]
      simp only [GRID_SIZE] at h10 ⊢
      omega
  · unfold pastePositions
    have hinj : Function.Injective
        (fun idx : Nat => (idx / GRID_SIZE, idx % GRID_SIZE)) := by
      intro a b hab
      simp only [Prod.mk.injEq, GRID_SIZE] at hab
      omega
    exact (List.nodup_range _).map hinj
  · intro i hi
    unfold pastePositions
    have hi2 : i < sheetCount b := by rw [hcount]; exact hi
    rw [List.getElem?_map, List.getElem?_range hi2]
    simp only [Option.map_some']
    congr 1
    rw [hgw]
    by_cases h10 : b.length ≤ GRID_SIZE
    · rw [Nat.min_eq_left h10]
      have hiG : i < GRID_SIZE := by omega
      rw [Nat.div_eq_of_lt hiG, Nat.div_eq_of_lt hi,
        Nat.mod_eq_of_lt hiG, Nat.mod_eq_of_lt hi]
    · rw [Nat.min_eq_right (by omega)]

/-- C4 witness: the pack properties applied to a concrete singleton input. -/
theorem c4_pack_properties_witness :
    [(⟨"p.png", 5, 5, "h"⟩ : ImageInfo)] ∈
        pack GRID_SIZE [⟨"p.png", 5, 5, "h"⟩]
    ∧ (0 : Nat) < 1
    ∧ (pastePositions [(⟨"p.png", 5, 5, "h"⟩ : ImageInfo)])[0]? =
        some (0 / gridW [(⟨"p.png", 5, 5, "h"⟩ : ImageInfo)],
          0 % gridW [(⟨"p.png", 5, 5, "h"⟩ : ImageInfo)]) := by
  refine ⟨by decide, by decide, ?_⟩
  exact ((c4_pack_properties [⟨"p.png", 5, 5, "h"⟩]).2.2.2
    [⟨"p.png", 5, 5, "h"⟩] (by decide)).2.2.2.2.2 0 (by decide)

/-- C3 (confirmed): if the single remote call for a batch fails at any stage
— submit error, missing urls, status poll error, explicit FAILED or
CANCELLED, poll timeout, unfetchable result, empty or url-less images array,
image download error, or an undecodable composite — then every item of that
batch is paired with `none` (reported failed), the writer writes zero outputs
for that batch, and exactly those failed pairs appear in the full
compositional run's results. -/
theorem c3_batch_failure_all_failed (call : Nat → GridCall) (rows cols : Nat)
    (descs : List AssetDescription) (k : Nat) (b : List AssetDescription)
    (hrc : 0 < rows * cols)
    (hb : (chunksOf (rows * cols) descs)[k]? = some b)
    (hfail : gridCallFailed (call k) = true) :
    gridBatchResults (call k) rows cols b = b.map (fun d => (d, none))
    ∧ savedDescs (gridBatchResults (call k) rows cols b) = []
    ∧ (∀ d ∈ b, (d, (none : Option PImage)) ∈
        generate_compositional_grid call rows cols descs) := by
  have hbmem : b ∈ chunksOf (rows * cols) descs := List.getElem?_mem hb
  have hble : b.length ≤ rows * cols :=
    (mem_chunksOf _ hrc descs b hbmem).2
  have hmap : gridBatchResults (call k) rows cols b =
      b.map (fun d => (d, none)) := by
    cases hc : call k with
    | ok decoded cellFail =>
      rw [hc] at hfail
      cases decoded with
      | some img => simp [gridCallFailed] at hfail
      | none =>
        simp only [gridBatchResults, split_grid_image]
        exact zip_replicate_none b (rows * cols) hble
    | submitError => rfl
    | missingUrls => rfl
    | pollStatusError => rfl
    | pollFailed => rfl
    | pollTimeout => rfl
    | fetchError => rfl
    | noImages => rfl
    | noImageUrl => rfl
    | downloadError => rfl
  refine ⟨hmap, by rw [hmap]; simp [savedDescs], ?_⟩
  intro d hd
  unfold generate_compositional_grid
  rw [List.mem_flatten]
  refine ⟨gridBatchResults (call k) rows cols b, ?_, ?_⟩
  · rw [List.mem_map]
    refine ⟨(k, b), ?_, rfl⟩
    have henum : (chunksOf (rows * cols) descs).enum[k]? = some (k, b) := by
      rw [getElem?_enum, hb]
      rfl
    exact List.getElem?_mem henum
  · rw [hmap, List.mem_map]
    exact ⟨d, hd, rfl⟩

/-- C3 witness: a submit failure on a concrete one-item batch reports the
item failed and writes nothing. -/
theorem c3_batch_failure_all_failed_witness :
    (chunksOf (2 * 2)
        [(⟨"a.json", "a.png", [], "sprite", "", 64, 64⟩ : AssetDescription)])[0]? =
      some [⟨"a.json", "a.png", [], "sprite", "", 64, 64⟩]
    ∧ gridCallFailed GridCall.submitError = true
    ∧ savedDescs (gridBatchResults GridCall.submitError 2 2
        [⟨"a.json", "a.png", [], "sprite", "", 64, 64⟩]) = [] := by
  refine ⟨by decide, by decide, ?_⟩
  exact (c3_batch_failure_all_failed (fun _ => GridCall.submitError) 2 2
    [⟨"a.json", "a.png", [], "sprite", "", 64, 64⟩] 0
    [⟨"a.json", "a.png", [], "sprite", "", 64, 64⟩]
    (by decide) (by decide) (by decide)).2.1

theorem mem_markedIds (q : Progress) (x : Nat) :
    x ∈ markedIds q ↔ ∃ r : CacheRec, (x, r) ∈ q ∧ r.processed = true := by
  unfold markedIds
  rw [List.mem_map]
  constructor
  · rintro ⟨e, he, rfl⟩
    have hf := List.mem_filter.mp he
    exact ⟨e.2, by simpa using hf.1, by simpa using hf.2⟩
  · rintro ⟨r, hr, hp⟩
    exact ⟨(x, r), List.mem_filter.mpr ⟨hr, by simpa using hp⟩, rfl⟩

theorem mem_setRec (p : Progress) (id : Nat) (r : CacheRec) :
    ∀ e ∈ setRec p id r, e = (id, r) ∨ e ∈ p := by
  induction p with
  | nil =>
    intro e he
    simp [setRec] at he
    exact Or.inl he
  | cons f rest ih =>
    intro e he
    unfold setRec at he
    by_cases hk : f.1 == id
    · rw [if_pos hk] at he
      rcases List.mem_cons.mp he with h1 | h1
      · exact Or.inl h1
      · exact Or.inr (List.mem_cons_of_mem _ h1)
    · rw [if_neg hk] at he
      rcases List.mem_cons.mp he with h1 | h1
      · exact Or.inr (h1 ▸ List.mem_cons_self _ _)
      · rcases ih e h1 with h2 | h2
        · exact Or.inl h2
        · exact Or.inr (List.mem_cons_of_mem _ h2)

theorem markedIds_setRec (p : Progress) (id h : Nat) :
    ∀ x ∈ markedIds (setRec p id ⟨h, true⟩), x = id ∨ x ∈ markedIds p := by
  intro x hx
  rw [mem_markedIds] at hx
  obtain ⟨r, hr, hp⟩ := hx
  rcases mem_setRec p id ⟨h, true⟩ (x, r) hr with h1 | h1
  · exact Or.inl (congrArg Prod.fst h1)
  · exact Or.inr ((mem_markedIds p x).mpr ⟨r, h1, hp⟩)

theorem afterWritten_append (w : List Nat) (e1 e2 : List Event) :
    afterWritten w (e1 ++ e2) = afterWritten (afterWritten w e1) e2 := by
  induction e1 generalizing w with
  | nil => rfl
  | cons e rest ih =>
    cases e with
    | remoteCall ids => exact ih w
    | writeOut id => exact ih (id :: w)
    | persist q => exact ih w

theorem tracksWrites_append (w : List Nat) (e1 e2 : List Event)
    (h1 : tracksWrites w e1) (h2 : tracksWrites (afterWritten w e1) e2) :
    tracksWrites w (e1 ++ e2) := by
  induction e1 generalizing w with
  | nil => exact h2
  | cons e rest ih =>
    cases e with
    | remoteCall ids => exact ih w h1 h2
    | writeOut id => exact ih (id :: w) h1 h2
    | persist q => exact ⟨h1.1, ih w h1.2 h2⟩

theorem processBatchSaves_tracks (descOk : Nat → Bool) :
    ∀ (need : List Item) (p : Progress) (w : List Nat),
      tracksWrites w (processBatchSaves descOk need p).1 := by
  intro need
  induction need with
  | nil => intro p w; trivial
  | cons it rest ih =>
    intro p w
    unfold processBatchSaves
    by_cases hd : descOk it.id
    · rw [if_pos hd]
      exact ih (setRec p it.id ⟨it.hash, true⟩) (it.id :: w)
    · rw [if_neg hd]
      exact ih p w

theorem processBatchSaves_marks (descOk : Nat → Bool) :
    ∀ (need : List Item) (p : Progress) (w : List Nat),
      (∀ x ∈ markedIds p, x ∈ w) →
      ∀ x ∈ markedIds (processBatchSaves descOk need p).2,
        x ∈ afterWritten w (processBatchSaves descOk need p).1 := by
  intro need
  induction need with
  | nil => intro p w hw; exact hw
  | cons it rest ih =>
    intro p w hw
    unfold processBatchSaves
    by_cases hd : descOk it.id
    · rw [if_pos hd]
      intro x hx
      refine ih (setRec p it.id ⟨it.hash, true⟩) (it.id :: w) ?_ x hx
      intro y hy
      rcases markedIds_setRec p it.id it.hash y hy with h1 | h1
      · exact h1 ▸ List.mem_cons_self _ _
      · exact List.mem_cons_of_mem _ (hw y h1)
    · rw [if_neg hd]
      exact ih p w hw

theorem process_batch_safe (force : Bool) (outEx descOk : Nat → Bool)
    (images : List Item) (p : Progress) (w : List Nat)
    (hw : ∀ x ∈ markedIds p, x ∈ w) :
    tracksWrites w (process_batch force outEx descOk images p).1
    ∧ ∀ x ∈ markedIds (process_batch force outEx descOk images p).2,
        x ∈ afterWritten w (process_batch force outEx descOk images p).1 := by
  unfold process_batch
  by_cases hne : (needProcessBatch force p outEx images).isEmpty
  · rw [if_pos hne]
    exact ⟨trivial, hw⟩
  · rw [if_neg hne]
    set saves := processBatchSaves descOk
      (needProcessBatch force p outEx images) p with hs
    constructor
    · show tracksWrites w (saves.1 ++ [Event.persist saves.2])
      refine tracksWrites_append w saves.1 [Event.persist saves.2]
        (processBatchSaves_tracks descOk _ p w) ⟨?_, trivial⟩
      exact processBatchSaves_marks descOk _ p w hw
    · intro x hx
      show x ∈ afterWritten w
        (Event.remoteCall _ :: saves.1 ++ [Event.persist saves.2])
      have he : afterWritten w
          (Event.remoteCall ((needProcessBatch force p outEx images).map
            Item.id) :: saves.1 ++ [Event.persist saves.2]) =
          afterWritten w saves.1 := by
        show afterWritten w (saves.1 ++ [Event.persist saves.2]) =
          afterWritten w saves.1
        rw [afterWritten_append]
        rfl
      rw [he]
      exact processBatchSaves_marks descOk _ p w hw x hx

theorem process_large_safe (force : Bool) (outEx descOk : Nat → Bool)
    (it : Item) (p : Progress) (w : List Nat)
    (hw : ∀ x ∈ markedIds p, x ∈ w) :
    tracksWrites w (process_large_image force outEx descOk it p).1.1
    ∧ ∀ x ∈ markedIds (process_large_image force outEx descOk it p).1.2,
        x ∈ afterWritten w (process_large_image force outEx descOk it p).1.1 := by
  unfold process_large_image
  by_cases hs : skipLargeItem force p outEx it
  · rw [if_pos hs]
    exact ⟨trivial, hw⟩
  · rw [if_neg hs]
    by_cases hd : descOk it.id
    · rw [if_pos hd]
      have hm : ∀ x ∈ markedIds (setRec p it.id ⟨it.hash, true⟩),
          x ∈ it.id :: w := by
        intro y hy
        rcases markedIds_setRec p it.id it.hash y hy with h1 | h1
        · exact h1 ▸ List.mem_cons_self _ _
        · exact List.mem_cons_of_mem _ (hw y h1)
      exact ⟨⟨hm, trivial⟩, hm⟩
    · rw [if_neg hd]
      exact ⟨trivial, hw⟩

theorem runUnits_safe (force : Bool) (outEx descOk : Nat → Bool) :
    ∀ (units : List WorkUnit) (p : Progress) (w : List Nat),
      (∀ x ∈ markedIds p, x ∈ w) →
      tracksWrites w (runUnits force outEx descOk units p).1
      ∧ ∀ x ∈ markedIds (runUnits force outEx descOk units p).2,
          x ∈ afterWritten w (runUnits force outEx descOk units p).1 := by
  intro units
  induction units with
  | nil => intro p w hw; exact ⟨trivial, hw⟩
  | cons u rest ih =>
    intro p w hw
    have hstep : tracksWrites w
        (match u with
          | WorkUnit.batch imgs => process_batch force outEx descOk imgs p
          | WorkUnit.single it =>
            (process_large_image force outEx descOk it p).1).1
        ∧ ∀ x ∈ markedIds
            (match u with
              | WorkUnit.batch imgs => process_batch force outEx descOk imgs p
              | WorkUnit.single it =>
                (process_large_image force outEx descOk it p).1).2,
            x ∈ afterWritten w
              (match u with
                | WorkUnit.batch imgs =>
                  process_batch force outEx descOk imgs p
                | WorkUnit.single it =>
                  (process_large_image force outEx descOk it p).1).1 := by
      cases u with
      | batch imgs => exact process_batch_safe force outEx descOk imgs p w hw
      | single it => exact process_large_safe force outEx descOk it p w hw
    unfold runUnits
    obtain ⟨ht, hm⟩ := hstep
    obtain ⟨ht2, hm2⟩ := ih _ _ hm
    constructor
    · exact tracksWrites_append _ _ _ ht ht2
    · intro x hx
      rw [afterWritten_append]
      exact hm2 x hx

/-- C7 (confirmed): a done-mark reaches the persisted progress index only
after the corresponding output write.  For any run (any interleaving of
sprite-sheet batches and large items), if every done-mark of the initial
index is covered by the initial write set, then at every `persist` event of
the run's trace every done-marked identifier has a preceding `writeOut`
event — the index never records done-marks whose output write has not yet
occurred. -/
theorem c7_persist_after_write (force : Bool) (outEx descOk : Nat → Bool)
    (units : List WorkUnit) (p : Progress) (w : List Nat)
    (hw : marksCovered p w = true) :
    tracksWrites w (runUnits force outEx descOk units p).1 := by
  have hw2 : ∀ x ∈ markedIds p, x ∈ w := by
    intro x hx
    have := List.all_eq_true.mp hw x hx
    exact of_decide_eq_true this
  exact (runUnits_safe force outEx descOk units p w hw2).1

/-- C7 witness: a concrete two-unit run from an empty index satisfies the
trace property. -/
theorem c7_persist_after_write_witness :
    marksCovered [] [] = true
    ∧ tracksWrites []
        (runUnits false (fun _ => false) (fun _ => true)
          [WorkUnit.batch [⟨1, 10, 10, 5⟩], WorkUnit.single ⟨2, 8, 8, 7⟩]
          []).1 := by
  refine ⟨by decide, ?_⟩
  exact c7_persist_after_write false (fun _ => false) (fun _ => true)
    [WorkUnit.batch [⟨1, 10, 10, 5⟩], WorkUnit.single ⟨2, 8, 8, 7⟩] [] []
    (by decide)

theorem pollLoop_succ (resp : Nat → PollResp) (t f : Nat) :
    pollLoop resp t (f + 1) =
      match resp t with
      | PollResp.httpError => JobResolution.pollError t
      | PollResp.completedS => JobResolution.completed t
      | PollResp.failedS => JobResolution.failedStatus t
      | PollResp.cancelledS => JobResolution.failedStatus t
      | PollResp.pending => pollLoop resp (t + 1) f := rfl

theorem pollLoop_timedOut_iff (resp : Nat → PollResp) :
    ∀ (fuel t : Nat), pollLoop resp t fuel = JobResolution.timedOut ↔
      ∀ u, t ≤ u → u < t + fuel → resp u = PollResp.pending := by
  intro fuel
  induction fuel with
  | zero =>
    intro t
    constructor
    · intro _ u hu1 hu2
      omega
    · intro _
      rfl
  | succ f ih =>
    intro t
    rw [pollLoop_succ]
    cases hr : resp t with
    | httpError =>
      refine ⟨fun h => absurd h (by simp), fun h => ?_⟩
      exact absurd (h t (Nat.le_refl t) (by omega)) (by simp [hr])
    | completedS =>
      refine ⟨fun h => absurd h (by simp), fun h => ?_⟩
      exact absurd (h t (Nat.le_refl t) (by omega)) (by simp [hr])
    | failedS =>
      refine ⟨fun h => absurd h (by simp), fun h => ?_⟩
      exact absurd (h t (Nat.le_refl t) (by omega)) (by simp [hr])
    | cancelledS =>
      refine ⟨fun h => absurd h (by simp), fun h => ?_⟩
      exact absurd (h t (Nat.le_refl t) (by omega)) (by simp [hr])
    | pending =>
      rw [ih (t + 1)]
      constructor
      · intro h u hu1 hu2
        rcases Nat.eq_or_lt_of_le hu1 with he | hl
        · rw [← he]
          exact hr
        · exact h u hl (by omega)
      · intro h u hu1 hu2
        exact h u (by omega) (by omega)

theorem pollLoop_completed (resp : Nat → PollResp) :
    ∀ (fuel t u : Nat), pollLoop resp t fuel = JobResolution.completed u →
      t ≤ u ∧ u < t + fuel ∧ resp u = PollResp.completedS
      ∧ ∀ v, t ≤ v → v < u → resp v = PollResp.pending := by
  intro fuel
  induction fuel with
  | zero =>
    intro t u h
    exact absurd h (by simp [pollLoop])
  | succ f ih =>
    intro t u h
    rw [pollLoop_succ] at h
    cases hr : resp t with
    | httpError => rw [hr] at h; exact absurd h (by simp)
    | completedS =>
      rw [hr] at h
      have hu : u = t := by
        have := (JobResolution.completed.injEq t u).mp h
        omega
      subst hu
      exact ⟨Nat.le_refl u, by omega, hr, fun v hv1 hv2 => absurd hv1 (by omega)⟩
    | failedS => rw [hr] at h; exact absurd h (by simp)
    | cancelledS => rw [hr] at h; exact absurd h (by simp)
    | pending =>
      rw [hr] at h
      obtain ⟨h1, h2, h3, h4⟩ := ih (t + 1) u h
      refine ⟨by omega, by omega, h3, ?_⟩
      intro v hv1 hv2
      rcases Nat.eq_or_lt_of_le hv1 with he | hl
      · rw [← he]
        exact hr
      · exact h4 v hl hv2

theorem pollLoop_failed (resp : Nat → PollResp) :
    ∀ (fuel t u : Nat), pollLoop resp t fuel = JobResolution.failedStatus u →
      t ≤ u ∧ u < t + fuel ∧
        (resp u = PollResp.failedS ∨ resp u = PollResp.cancelledS) := by
  intro fuel
  induction fuel with
  | zero =>
    intro t u h
    exact absurd h (by simp [pollLoop])
  | succ f ih =>
    intro t u h
    rw [pollLoop_succ] at h
    cases hr : resp t with
    | httpError => rw [hr] at h; exact absurd h (by simp)
    | completedS => rw [hr] at h; exact absurd h (by simp)
    | failedS =>
      rw [hr] at h
      have hu : u = t := by
        have := (JobResolution.failedStatus.injEq t u).mp h
        omega
      subst hu
      exact ⟨Nat.le_refl u, by omega, Or.inl hr⟩
    | cancelledS =>
      rw [hr] at h
      have hu : u = t := by
        have := (JobResolution.failedStatus.injEq t u).mp h
        omega
      subst hu
      exact ⟨Nat.le_refl u, by omega, Or.inr hr⟩
    | pending =>
      rw [hr] at h
      obtain ⟨h1, h2, h3⟩ := ih (t + 1) u h
      exact ⟨by omega, by omega, h3⟩

theorem pollLoop_pollError (resp : Nat → PollResp) :
    ∀ (fuel t u : Nat), pollLoop resp t fuel = JobResolution.pollError u →
      t ≤ u ∧ u < t + fuel ∧ resp u = PollResp.httpError := by
  intro fuel
  induction fuel with
  | zero =>
    intro t u h
    exact absurd h (by simp [pollLoop])
  | succ f ih =>
    intro t u h
    rw [pollLoop_succ] at h
    cases hr : resp t with
    | httpError =>
      rw [hr] at h
      have hu : u = t := by
        have := (JobResolution.pollError.injEq t u).mp h
        omega
      subst hu
      exact ⟨Nat.le_refl u, by omega, hr⟩
    | completedS => rw [hr] at h; exact absurd h (by simp)
    | failedS => rw [hr] at h; exact absurd h (by simp)
    | cancelledS => rw [hr] at h; exact absurd h (by simp)
    | pending =>
      rw [hr] at h
      obtain ⟨h1, h2, h3⟩ := ih (t + 1) u h
      exact ⟨by omega, by omega, h3⟩

/-- C8 (confirmed): the poll loop of a successfully submitted job terminates
in one of exactly the terminal outcomes Completed, Failed (an explicit
FAILED/CANCELLED status or a failing status poll, both surfaced as per-unit
errors), or TimedOut, never polling past the `FAL_MAX_POLL_TIME` bound of 120
seconds: a timeout happens exactly when every poll within the bound is still
pending, and every other outcome fires at a poll inside the bound, preceded
only by pending polls. -/
theorem c8_job_resolution (resp : Nat → PollResp) :
    (resolveJob resp = JobResolution.timedOut ↔
      ∀ t, t < FAL_MAX_POLL_TIME → resp t = PollResp.pending)
    ∧ (∀ t, resolveJob resp = JobResolution.completed t →
        t < FAL_MAX_POLL_TIME ∧ resp t = PollResp.completedS
        ∧ ∀ u, u < t → resp u = PollResp.pending)
    ∧ (∀ t, resolveJob resp = JobResolution.failedStatus t →
        t < FAL_MAX_POLL_TIME ∧
          (resp t = PollResp.failedS ∨ resp t = PollResp.cancelledS))
    ∧ (∀ t, resolveJob resp = JobResolution.pollError t →
        t < FAL_MAX_POLL_TIME ∧ resp t = PollResp.httpError) := by
  refine ⟨?_, ?_, ?_, ?_⟩
  · unfold resolveJob
    rw [pollLoop_timedOut_iff resp FAL_MAX_POLL_TIME 0]
    constructor
    · intro h t ht
      exact h t (Nat.zero_le t) (by omega)
    · intro h u _ hu
      exact h u (by omega)
  · intro t h
    obtain ⟨h1, h2, h3, h4⟩ := pollLoop_completed resp FAL_MAX_POLL_TIME 0 t h
    exact ⟨by omega, h3, fun u hu => h4 u (Nat.zero_le u) hu⟩
  · intro t h
    obtain ⟨h1, h2, h3⟩ := pollLoop_failed resp FAL_MAX_POLL_TIME 0 t h
    exact ⟨by omega, h3⟩
  · intro t h
    obtain ⟨h1, h2, h3⟩ := pollLoop_pollError resp FAL_MAX_POLL_TIME 0 t h
    exact ⟨by omega, h3⟩

/-- C8 witness: a job pending for three seconds and then completed resolves
as Completed at second 3, inside the 120-second bound. -/
theorem c8_job_resolution_witness :
    resolveJob respToy = JobResolution.completed 3
    ∧ 3 < FAL_MAX_POLL_TIME
    ∧ respToy 3 = PollResp.completedS := by
  refine ⟨by decide, ?_, ?_⟩
  · exact ((c8_job_resolution respToy).2.1 3 (by decide)).1
  · exact ((c8_job_resolution respToy).2.1 3 (by decide)).2.1

/-- C10 (confirmed): an item whose png path has no entry in the persisted
size index — including when the size-index file is absent entirely, which
loads as the empty index — is assigned default dimensions 64 x 64 by
`load_json_descriptions` and is included in the result, not rejected. -/
theorem c10_default_size (sizes : List (String × Nat × Nat))
    (files : List RawFile) (f : RawFile) (d : JsonData)
    (hf : f ∈ files) (hp : f.parsed = some d)
    (hs : sizes.find? (fun e => e.1 == f.png_path) = none) :
    load_image_sizes none = []
    ∧ sizeLookup sizes f.png_path = (64, 64)
    ∧ mkDescription sizes f =
        some ⟨f.json_path, d.source_file.getD f.stemPng, d.keywords.getD [],
          d.jtype.getD "sprite", d.jhash.getD "", 64, 64⟩
    ∧ (⟨f.json_path, d.source_file.getD f.stemPng, d.keywords.getD [],
          d.jtype.getD "sprite", d.jhash.getD "", 64, 64⟩ : AssetDescription) ∈
        load_json_descriptions sizes files := by
  have hlook : sizeLookup sizes f.png_path = (64, 64) := by
    unfold sizeLookup
    rw [hs]
  have hmk : mkDescription sizes f =
      some ⟨f.json_path, d.source_file.getD f.stemPng, d.keywords.getD [],
        d.jtype.getD "sprite", d.jhash.getD "", 64, 64⟩ := by
    unfold mkDescription
    rw [hp]
    simp [hlook]
  refine ⟨rfl, hlook, hmk, ?_⟩
  unfold load_json_descriptions
  rw [List.mem_mergeSort, List.mem_filterMap]
  exact ⟨f, hf, hmk⟩

/-- C10 witness: with an absent size index (loaded as empty) a concrete
parsed description gets dimensions 64 x 64 and appears in the loaded list. -/
theorem c10_default_size_witness :
    (⟨"a.json", "a.png", "a.png", some ⟨none, none, none, none⟩⟩ : RawFile) ∈
        [(⟨"a.json", "a.png", "a.png", some ⟨none, none, none, none⟩⟩ :
          RawFile)]
    ∧ (load_image_sizes none).find? (fun e => e.1 == "a.png") = none
    ∧ (⟨"a.json", "a.png", [], "sprite", "", 64, 64⟩ : AssetDescription) ∈
        load_json_descriptions (load_image_sizes none)
          [⟨"a.json", "a.png", "a.png", some ⟨none, none, none, none⟩⟩] := by
  refine ⟨by decide, by decide, ?_⟩
  have h := c10_default_size (load_image_sizes none)
    [⟨"a.json", "a.png", "a.png", some ⟨none, none, none, none⟩⟩]
    ⟨"a.json", "a.png", "a.png", some ⟨none, none, none, none⟩⟩
    ⟨none, none, none, none⟩ (by decide) (by decide) (by decide)
  exact h.2.2.2

end SC2K
